import Mathlib

/-!
Verification of the Clinicall background worker (a BullMQ-based queue server).

The repository consists of two revisions of one queue server:
`src/queue-server.js` (current: single unconditional sendMail in the email
handler, errors caught and returned as data) and `src/unnamed/part_000`
(earlier: switch-on-type email handler that rethrows errors).

Handler bodies, the retention-sweeper cycle and the shutdown sequence are
embedded directly from the source.  The broker semantics (job lifecycle,
retry/backoff, concurrency leasing, stalled-job reclamation, clean) live in
the BullMQ library, not in this repository's sources; those parts are
modelled from the specification, as marked on each definition.
-/

namespace Clinicall

/-! ## Data model: payloads, mail messages, environment -/

/-- The fields the email workers read from `job.data`: `{ type, to, data }`
with `data.subject` and `data.html` (queue-server.js line 55, part_000 line 66). -/
structure EmailPayload where
  type : String
  toAddr : String
  subject : String
  html : String
  deriving DecidableEq, Repr

/-- The argument object handed to `transporter.sendMail`:
`{ from, to, subject, html }`. -/
structure MailMessage where
  fromField : String
  toField : String
  subject : String
  html : String
  deriving DecidableEq, Repr

/-- The environment values the handlers read (`process.env.EMAIL_USER`). -/
structure Env where
  emailUser : String
  deriving DecidableEq, Repr

/-- Outcome of one `sendMail` call: the promise resolves or rejects. -/
inductive MailOutcome where
  | resolved
  | rejected (message : String)
  deriving DecidableEq, Repr

/-- Value returned by an email handler invocation:
`{ success: true, type, to }` or `{ success: false, error }`. -/
inductive EmailResult where
  | sent (type toAddr : String)
  | sendError (error : String)
  deriving DecidableEq, Repr

/-- The `success` field of the returned object. -/
def EmailResult.success : EmailResult → Bool
  | .sent _ _ => true
  | .sendError _ => false

/-! ## The queue-server.js email handler (lines 54-78) -/

/-- The `sendMail` argument built by the queue-server.js email worker
(lines 58-63): fixed `from` built from `EMAIL_USER`, and `to`, `subject`,
`html` taken from the job payload. -/
def qsMailRequest (env : Env) (p : EmailPayload) : MailMessage :=
  { fromField := "\"Clinical App Team\" <" ++ env.emailUser ++ ">"
  , toField := p.toAddr
  , subject := p.subject
  , html := p.html }

/-- The queue-server.js email handler (lines 54-70), as a function of the
mail transport's behaviour.  The body is one try/catch around a single
`sendMail`; on rejection the catch returns `{ success: false, error }`
instead of rethrowing.  `Except String` models a thrown error escaping the
handler; `.ok` is a normal return. -/
def qsEmailHandler (env : Env) (transport : MailMessage → MailOutcome)
    (p : EmailPayload) : Except String EmailResult :=
  match transport (qsMailRequest env p) with
  | .resolved => .ok (.sent p.type p.toAddr)
  | .rejected msg => .ok (.sendError msg)

/-- The list of `sendMail` calls the queue-server.js handler performs on a
payload: always exactly the one unconditional call. -/
def qsSends (env : Env) (p : EmailPayload) : List MailMessage :=
  [qsMailRequest env p]

/-! ## The part_000 email handler (lines 65-120): switch on `type` -/

/-- The email types recognised by the part_000 switch (lines 69-105). -/
def recognizedTypes : List String :=
  ["appointment_confirmation", "appointment_notification",
   "appointment_status_update", "approval", "rejection"]

/-- The `sendMail` call made by the part_000 switch for a payload, if any.
Each recognised case builds its own (textually duplicated) request object,
mirrored here branch by branch; the default case throws before any send
(`none`). -/
def part000SendFor (env : Env) (p : EmailPayload) : Option MailMessage :=
  match p.type with
  | "appointment_confirmation" =>
      some { fromField := "\"Clinical App Team\" <" ++ env.emailUser ++ ">"
           , toField := p.toAddr, subject := p.subject, html := p.html }
  | "appointment_notification" =>
      some { fromField := "\"Clinical App Team\" <" ++ env.emailUser ++ ">"
           , toField := p.toAddr, subject := p.subject, html := p.html }
  | "appointment_status_update" =>
      some { fromField := "\"Clinical App Team\" <" ++ env.emailUser ++ ">"
           , toField := p.toAddr, subject := p.subject, html := p.html }
  | "approval" =>
      some { fromField := "\"Clinical App Team\" <" ++ env.emailUser ++ ">"
           , toField := p.toAddr, subject := p.subject, html := p.html }
  | "rejection" =>
      some { fromField := "\"Clinical App Team\" <" ++ env.emailUser ++ ">"
           , toField := p.toAddr, subject := p.subject, html := p.html }
  | _ => none

/-- The part_000 email handler (lines 65-116): the list of mails actually
sent, and the handler's outcome.  An unknown type throws
`Unknown email type` before sending; a transport rejection is logged by the
catch and rethrown (line 115), unlike the queue-server.js revision. -/
def part000Run (env : Env) (transport : MailMessage → MailOutcome)
    (p : EmailPayload) : List MailMessage × Except String EmailResult :=
  match part000SendFor env p with
  | none => ([], .error ("Unknown email type: " ++ p.type))
  | some m =>
      match transport m with
      | .resolved => ([m], .ok (.sent p.type p.toAddr))
      | .rejected msg => ([m], .error msg)

/-! ## Broker job model (the BullMQ side, modelled from the spec) -/

/-- Modelled from the spec: the job lifecycle states
Waiting, Active, Retrying, Completed, Failed (spec section 3; the broker
library implementing them is not in src/). -/
inductive JobState where
  | waiting
  | active
  | retrying
  | completed
  | failed
  deriving DecidableEq, Repr

/-- Modelled from the spec: the backoff policy, `none`, `fixed(delay)` or
`exponential(base)` (spec section 3; configured in part_000 lines 37-62 and
queue-server.js lines 36-43, interpreted by the broker library). -/
inductive BackoffPolicy where
  | nothing
  | fixed (delay : Nat)
  | exponential (base : Nat)
  deriving DecidableEq, Repr

/-- Modelled from the spec: the delay before the retry scheduled after a
failed attempt, as a function of the attempt count so far — fixed: the
constant delay; exponential: `base * 2 ^ (attempts - 1)` (spec section 4.2
step 4). -/
def backoffDelay : BackoffPolicy → Nat → Nat
  | .nothing, _ => 0
  | .fixed d, _ => d
  | .exponential b, attempts => b * 2 ^ (attempts - 1)

/-- A broker-side job record: attempt count, configured attempt budget,
lifecycle state, stalled-reclaim count. -/
structure Job where
  attempts : Nat
  maxAttempts : Nat
  state : JobState
  stalledCount : Nat
  deriving DecidableEq, Repr

/-- Modelled from the spec: a handler outcome as the broker classifies it —
success, or failure with a retryable flag (spec section 3, HandlerResult). -/
inductive HandlerResult where
  | success
  | failure (retryable : Bool)
  deriving DecidableEq, Repr

/-- Modelled from the spec: leasing a job — atomically move a Waiting job to
Active and increment its attempt count (spec section 4.2 step 1). -/
def lease (j : Job) : Job :=
  { j with state := .active, attempts := j.attempts + 1 }

/-- Modelled from the spec: only Waiting jobs may be leased
(spec section 4.2: "lease up to concurrency Waiting jobs"). -/
def leaseEligible (j : Job) : Bool :=
  j.state = .waiting

/-- Modelled from the spec: the worker reconciles a handler outcome with the
job's durable state (spec section 4.2 steps 3-5).  Success completes the
job.  A retryable failure with attempts below the budget moves it to
Retrying and schedules a return to Waiting after the backoff delay.  A
non-retryable failure, or an exhausted attempt budget, marks it Failed with
no scheduled retry. -/
def reconcile (policy : BackoffPolicy) (j : Job) (r : HandlerResult) :
    Job × Option Nat :=
  match r with
  | .success => ({ j with state := .completed }, none)
  | .failure retryable =>
      if retryable ∧ j.attempts < j.maxAttempts then
        ({ j with state := .retrying }, some (backoffDelay policy j.attempts))
      else
        ({ j with state := .failed }, none)

/-- Modelled from the spec: the trace of a Waiting job with `a` attempts
already consumed out of `N`, whose handler returns a retryable failure on
every invocation — the number of further invocations, the list of scheduled
retry delays, and the final state (spec sections 4.2 and 8).  Each round
leases the job (consuming one attempt) and reconciles a retryable failure;
a scheduled retry re-enters Waiting and the trace continues. -/
def allFailTrace (policy : BackoffPolicy) (N a : Nat) :
    Nat × List Nat × JobState :=
  if _h : a + 1 < N then
    let d := backoffDelay policy (a + 1)
    let rest := allFailTrace policy N (a + 1)
    (rest.1 + 1, d :: rest.2.1, rest.2.2)
  else
    (1, [], .failed)
termination_by N - a

/-! ## Worker pool over a table of jobs (modelled from the spec) -/

/-- Modelled from the spec: the durable job table, one record per job id;
the Worker Pool mutates exactly one record per reconciliation
(spec section 7: failures are isolated to the job's own record). -/
def finalize (policy : BackoffPolicy) (jobs : Nat → Job) (i : Nat)
    (r : HandlerResult) : Nat → Job :=
  fun k => if k = i then (reconcile policy (jobs i) r).1 else jobs k

/-- Modelled from the spec: one iteration of the worker pool's processing
loop — reconcile the finished job `i`'s outcome into the table and keep
running.  The `Except` layer models a process-level fault escaping the
loop; the pool never produces one: handler failure is data, not a crash
(spec sections 4.2 step 5 and 7). -/
def poolLoopStep (policy : BackoffPolicy) (jobs : Nat → Job) (i : Nat)
    (r : HandlerResult) : Except String (Nat → Job) :=
  .ok (finalize policy jobs i r)

/-- Modelled from the spec: how the broker classifies the outcome of one
handler invocation — a normal return is Success (the job completes, never
retried); a thrown error is a retryable HandlerFailure (spec sections 3
and 7; queue-server.js line 69 relies on this: "Don't throw to prevent
retries"). -/
def brokerClassify : Except String EmailResult → HandlerResult
  | .ok _ => .success
  | .error _ => .failure true

/-! ## Concurrency: pool step relation (modelled from the spec) -/

/-- Number of jobs currently in the Active state in a job-state table. -/
def countActive (js : List JobState) : Nat :=
  js.countP (fun s => s == JobState.active)

/-- Modelled from the spec: the transitions a worker pool with concurrency
bound `C` performs on its queue's job-state table (jobs indexed by
position).  A lease requires a free execution slot — strictly fewer than
`C` Active jobs — and activates one Waiting job; a slot is freed only when
its handler runs to completion and the job is reconciled to Completed,
Failed or Retrying; a Retrying job later re-enters Waiting
(spec sections 4.2 and 5). -/
inductive PoolStep (C : Nat) : List JobState → List JobState → Prop where
  | lease (js : List JobState) (i : Nat)
      (hw : js.get? i = some .waiting) (hc : countActive js < C) :
      PoolStep C js (js.set i .active)
  | finish (js : List JobState) (i : Nat) (s : JobState)
      (ha : js.get? i = some .active)
      (hs : s = .completed ∨ s = .failed ∨ s = .retrying) :
      PoolStep C js (js.set i s)
  | requeue (js : List JobState) (i : Nat)
      (hr : js.get? i = some .retrying) :
      PoolStep C js (js.set i .waiting)

/-- Reflexive-transitive closure of `PoolStep`: the states a pool can reach. -/
inductive PoolReach (C : Nat) : List JobState → List JobState → Prop where
  | refl (js : List JobState) : PoolReach C js js
  | tail {a b c : List JobState} :
      PoolReach C a b → PoolStep C b c → PoolReach C a c

/-! ## Stalled-job reclamation (modelled from the spec) -/

/-- A job record as the stalled-job scanner sees it: lifecycle state,
stalled-reclaim count, failure reason. -/
structure StallJob where
  state : JobState
  stalledCount : Nat
  failReason : Option String
  deriving DecidableEq, Repr

/-- Modelled from the spec: the stalled-job check applied to one Active job
whose lease has expired without a heartbeat — reclaim it to Waiting while
its stalled-reclaim count is below `maxStalled`, otherwise mark it Failed
with reason "stalled" (spec section 4.2; the `maxStalledCount` worker
setting, queue-server.js line 76). -/
def stalledCheck (maxStalled : Nat) (j : StallJob) : StallJob :=
  if j.state = .active then
    if j.stalledCount < maxStalled then
      { j with state := .waiting, stalledCount := j.stalledCount + 1 }
    else
      { j with state := .failed, failReason := some "stalled" }
  else j

/-- Modelled from the spec: the job after `k` stall rounds, starting from a
freshly leased Active job.  Each round re-leases the job if it was
reclaimed to Waiting, lets its lease expire again, and runs the
stalled-job check. -/
def afterStallChecks (maxStalled : Nat) : Nat → StallJob
  | 0 => { state := .active, stalledCount := 0, failReason := none }
  | k + 1 =>
      let j := afterStallChecks maxStalled k
      let j' := if j.state = .waiting then { j with state := .active } else j
      stalledCheck maxStalled j'

/-! ## clean (modelled from the spec) -/

/-- A job record as `clean` sees it: identifier, lifecycle state, and the
time it reached a terminal state. -/
structure TJob where
  id : Nat
  state : JobState
  finishedAt : Nat
  deriving DecidableEq, Repr

/-- Modelled from the spec: a job `clean(olderThan, limit, target)` may
remove — in the requested terminal state and older than `olderThan`
relative to `now` (spec section 4.1). -/
def cleanEligible (target : JobState) (olderThan now : Nat) (j : TJob) : Bool :=
  j.state == target && decide (j.finishedAt + olderThan < now)

/-- Recursion for `clean` over the job list (assumed ordered oldest first,
as the broker stores terminal records): remove eligible jobs until the
per-call limit is exhausted, keep everything else. -/
def cleanGo (target : JobState) (olderThan now : Nat) :
    Nat → List TJob → List TJob × Nat
  | _, [] => ([], 0)
  | 0, j :: js => (j :: js, 0)
  | limit + 1, j :: js =>
      if cleanEligible target olderThan now j then
        let rest := cleanGo target olderThan now limit js
        (rest.1, rest.2 + 1)
      else
        let rest := cleanGo target olderThan now (limit + 1) js
        (j :: rest.1, rest.2)

/-- Modelled from the spec: `clean(olderThan, limit, state)` over the
queue's job records at time `now` — the remaining records and the number
removed (spec section 4.1; called from queue-server.js lines 115-116). -/
def clean (olderThan limit : Nat) (target : JobState) (now : Nat)
    (js : List TJob) : List TJob × Nat :=
  cleanGo target olderThan now limit js

/-! ## Retention sweeper (queue-server.js lines 113-121) -/

/-- Outcome of one broker `clean` call as the sweeper awaits it: a removed
count, or a broker error (rejected promise). -/
inductive CleanOutcome where
  | ok (removed : Nat)
  | brokerError (message : String)
  deriving DecidableEq, Repr

/-- What one sweeper cycle logs: the success line, or the caught error. -/
inductive SweepLog where
  | cleaned
  | caught (message : String)
  deriving DecidableEq, Repr

/-- One retention-sweeper cycle, embedded from the `setInterval` callback
(queue-server.js lines 113-121): try both `clean` calls, log success; any
broker error is caught and logged.  `Except String` models an error
escaping the cycle and aborting the interval; the catch ensures it never
does.  A failure of the first `clean` skips the second, as in the source. -/
def sweeperCycle (completedClean failedClean : CleanOutcome) :
    Except String SweepLog :=
  match completedClean with
  | .brokerError m => .ok (.caught m)
  | .ok _ =>
      match failedClean with
      | .brokerError m => .ok (.caught m)
      | .ok _ => .ok .cleaned

/-- The periodic sweeper: run one cycle per scheduled tick, given each
tick's broker outcomes; an uncaught error in a cycle would abort the whole
run (the `Except` bind short-circuits, modelling a crashed interval). -/
def runSweeper :
    List (CleanOutcome × CleanOutcome) → Except String (List SweepLog)
  | [] => .ok []
  | c :: rest => do
      let l ← sweeperCycle c.1 c.2
      let ls ← runSweeper rest
      pure (l :: ls)

/-! ## Lifecycle and shutdown -/

/-- The shutdown actions performed by `gracefulShutdown`
(queue-server.js lines 123-130), in source order: close both worker pools,
then both queues, then exit with code 0. -/
inductive CloseAction where
  | closeEmailWorker
  | closeNotificationWorker
  | closeEmailQueue
  | closeNotificationQueue
  | exitProcess (code : Nat)
  deriving DecidableEq, Repr

/-- The `gracefulShutdown` sequence embedded from queue-server.js
lines 123-130. -/
def gracefulShutdown : List CloseAction :=
  [.closeEmailWorker, .closeNotificationWorker,
   .closeEmailQueue, .closeNotificationQueue, .exitProcess 0]

/-- Whether a shutdown action closes a worker pool. -/
def CloseAction.isPoolClose : CloseAction → Bool
  | .closeEmailWorker => true
  | .closeNotificationWorker => true
  | _ => false

/-- Whether a shutdown action closes a queue. -/
def CloseAction.isQueueClose : CloseAction → Bool
  | .closeEmailQueue => true
  | .closeNotificationQueue => true
  | _ => false

/-- Modelled from the spec: the lifecycle states of the process
(spec section 4.4). -/
inductive LcState where
  | starting
  | running
  | draining
  | stopped
  deriving DecidableEq, Repr

/-- Observable events while the process drains and shuts down. -/
inductive LcEvent where
  | leaseNew
  | handlerFinish
  | closedWorkerPools
  | closedQueues
  | closedBroker
  | exited (code : Nat)
  deriving DecidableEq, Repr

/-- Modelled from the spec: the event trace of Draining with `inFlight`
handler invocations still running — every in-flight handler finishes, then
the worker pools close, then the queues, then the broker connection, then
the process exits with code 0 (spec section 4.4; queue-server.js
lines 123-133). -/
def drainTrace (inFlight : Nat) : List LcEvent :=
  List.replicate inFlight .handlerFinish ++
    [.closedWorkerPools, .closedQueues, .closedBroker, .exited 0]

/-- Modelled from the spec: the lifecycle state after a SIGTERM/SIGINT —
Running enters Draining; a termination request while already Draining or
Stopped changes nothing (spec section 4.4). -/
def signalState : LcState → LcState
  | .running => .draining
  | s => s

/-- Modelled from the spec: the events a SIGTERM/SIGINT triggers — the full
drain trace when Running, nothing when already Draining or Stopped
(spec section 4.4; signal registration in queue-server.js lines 132-133). -/
def signalEvents : LcState → Nat → List LcEvent
  | .running, inFlight => drainTrace inFlight
  | _, _ => []

/-! ## Concrete inputs used by witnesses -/

/-- A concrete environment. -/
def env0 : Env := { emailUser := "clinic@example.com" }

/-- A concrete recognised payload. -/
def p0 : EmailPayload :=
  { type := "approval", toAddr := "pat@example.com"
  , subject := "Approved", html := "<p>ok</p>" }

/-- The mail request the handlers build for `env0` and `p0`. -/
def m0 : MailMessage :=
  { fromField := "\"Clinical App Team\" <clinic@example.com>"
  , toField := "pat@example.com", subject := "Approved", html := "<p>ok</p>" }

/-- A concrete transport that always resolves. -/
def transportOk : MailMessage → MailOutcome := fun _ => .resolved

/-- A concrete transport that always rejects. -/
def transportDown : MailMessage → MailOutcome :=
  fun _ => .rejected "ECONNREFUSED"

/-! ## Claims -/

/-- Claim C3: the queue-server.js email handler is total over the
mail-transport outcome — whether `sendMail` resolves or rejects, it returns
an object whose `success` field reflects the outcome and never throws; the
broker therefore classifies every invocation as Success, so the job
completes normally (even when the send errored) and is never retried. -/
theorem qsEmailHandler_total (env : Env) (transport : MailMessage → MailOutcome)
    (p : EmailPayload) (policy : BackoffPolicy) (j : Job) :
    (∃ r : EmailResult, qsEmailHandler env transport p = .ok r ∧
        (r.success = true ↔ transport (qsMailRequest env p) = .resolved)) ∧
    brokerClassify (qsEmailHandler env transport p) = .success ∧
    reconcile policy j (brokerClassify (qsEmailHandler env transport p)) =
      ({ j with state := .completed }, none) := by
  unfold qsEmailHandler brokerClassify
  cases h : transport (qsMailRequest env p) with
  | resolved => exact ⟨⟨_, rfl, by simp [EmailResult.success]⟩, rfl, rfl⟩
  | rejected msg =>
      refine ⟨⟨_, rfl, ?_⟩, rfl, rfl⟩
      simp [EmailResult.success]

/-- Witness for C3 at a concrete environment, payload and failing transport. -/
theorem qsEmailHandler_total_witness :
    (∃ r : EmailResult, qsEmailHandler env0 transportDown p0 = .ok r ∧
        (r.success = true ↔ transportDown (qsMailRequest env0 p0) = .resolved)) ∧
    brokerClassify (qsEmailHandler env0 transportDown p0) = .success ∧
    reconcile .nothing { attempts := 1, maxAttempts := 1, state := .active, stalledCount := 0 }
        (brokerClassify (qsEmailHandler env0 transportDown p0)) =
      ({ attempts := 1, maxAttempts := 1, state := .completed, stalledCount := 0 }, none) :=
  qsEmailHandler_total env0 transportDown p0 .nothing
    { attempts := 1, maxAttempts := 1, state := .active, stalledCount := 0 }

/-- The part_000 switch collapses to: send the queue-server.js request when
the type is recognised, otherwise send nothing. -/
lemma part000SendFor_eq (env : Env) (p : EmailPayload) :
    part000SendFor env p =
      if p.type ∈ recognizedTypes then some (qsMailRequest env p) else none := by
  obtain ⟨ty, toa, su, ht⟩ := p
  unfold part000SendFor
  split <;> simp_all [recognizedTypes, qsMailRequest]

/-- Claim C9: on every recognised type the part_000 switch handler performs
exactly the one `sendMail` call the queue-server.js handler performs — the
same from/to/subject/html — and its outcome mirrors the transport (a
rejection is rethrown); on any other type it throws `Unknown email type`
without sending any mail. -/
theorem part000_refines_qs (env : Env) (transport : MailMessage → MailOutcome)
    (p : EmailPayload) :
    part000Run env transport p =
      if p.type ∈ recognizedTypes then
        (qsSends env p,
          match transport (qsMailRequest env p) with
          | .resolved => .ok (.sent p.type p.toAddr)
          | .rejected msg => .error msg)
      else ([], .error ("Unknown email type: " ++ p.type)) := by
  unfold part000Run qsSends
  rw [part000SendFor_eq]
  by_cases h : p.type ∈ recognizedTypes
  · simp only [if_pos h]
    cases transport (qsMailRequest env p) <;> rfl
  · simp only [if_neg h]

/-- Witness for C9 at a concrete recognised payload and resolving transport. -/
theorem part000_refines_qs_witness :
    part000Run env0 transportOk p0 =
      if p0.type ∈ recognizedTypes then
        (qsSends env0 p0,
          match transportOk (qsMailRequest env0 p0) with
          | .resolved => .ok (.sent p0.type p0.toAddr)
          | .rejected msg => .error msg)
      else ([], .error ("Unknown email type: " ++ p0.type)) :=
  part000_refines_qs env0 transportOk p0

/-- Claim C10: the `from` field passed to `sendMail` is the fixed sender
built from `EMAIL_USER` — identical across any two payloads and equal to
the part_000 sender — so no enqueued payload can change the sending
identity. -/
theorem sender_identity_fixed (env : Env) (p p1 p2 : EmailPayload)
    (m : MailMessage) (hm : part000SendFor env p = some m) :
    (qsMailRequest env p1).fromField = (qsMailRequest env p2).fromField ∧
    (qsMailRequest env p).fromField =
      "\"Clinical App Team\" <" ++ env.emailUser ++ ">" ∧
    m.fromField = (qsMailRequest env p).fromField := by
  rw [part000SendFor_eq] at hm
  refine ⟨rfl, rfl, ?_⟩
  by_cases h : p.type ∈ recognizedTypes
  · rw [if_pos h] at hm
    cases hm
    rfl
  · rw [if_neg h] at hm
    cases hm

/-- Witness for C10 at a concrete environment and payload. -/
theorem sender_identity_fixed_witness :
    (qsMailRequest env0 p0).fromField = (qsMailRequest env0 p0).fromField ∧
    (qsMailRequest env0 p0).fromField =
      "\"Clinical App Team\" <" ++ env0.emailUser ++ ">" ∧
    m0.fromField = (qsMailRequest env0 p0).fromField :=
  sender_identity_fixed env0 p0 p0 p0 m0 (by decide)

/-- Claim C1: a handler outcome of Failure with `retryable = false`, or a
Failure once the attempt count has reached `maxAttempts`, marks the job
Failed permanently — no retry is scheduled and the job is no longer
lease-eligible — the update touches only that job's record, and the pool
loop step still returns normally (no process-level fault). -/
theorem failure_is_data (policy : BackoffPolicy) (jobs : Nat → Job) (i : Nat)
    (b : Bool) (r : HandlerResult) (hb : r = .failure b)
    (h : b = false ∨ (jobs i).maxAttempts ≤ (jobs i).attempts) :
    ∃ jobs2 : Nat → Job, poolLoopStep policy jobs i r = .ok jobs2 ∧
      (jobs2 i).state = .failed ∧
      (reconcile policy (jobs i) r).2 = none ∧
      (∀ k, k ≠ i → jobs2 k = jobs k) ∧
      leaseEligible (jobs2 i) = false := by
  subst hb
  have hcond : ¬ (b = true ∧ (jobs i).attempts < (jobs i).maxAttempts) := by
    rcases h with h | h
    · rintro ⟨hb1, _⟩
      rw [h] at hb1
      cases hb1
    · rintro ⟨_, hlt⟩
      omega
  refine ⟨finalize policy jobs i (.failure b), rfl, ?_, ?_, ?_, ?_⟩
  · simp [finalize, reconcile, hcond]
  · simp [reconcile, hcond]
  · intro k hk
    simp [finalize, hk]
  · simp [finalize, reconcile, leaseEligible, hcond]

/-- A concrete job table: one active job out of attempts. -/
def jobs0 : Nat → Job :=
  fun _ => { attempts := 3, maxAttempts := 3, state := .active, stalledCount := 0 }

/-- Witness for C1 at a concrete table and a retryable failure with the
attempt budget exhausted. -/
theorem failure_is_data_witness :
    ∃ jobs2 : Nat → Job, poolLoopStep .nothing jobs0 0 (.failure true) = .ok jobs2 ∧
      (jobs2 0).state = .failed ∧
      (reconcile .nothing (jobs0 0) (.failure true)).2 = none ∧
      (∀ k, k ≠ 0 → jobs2 k = jobs0 k) ∧
      leaseEligible (jobs2 0) = false :=
  failure_is_data .nothing jobs0 0 true (.failure true) rfl (Or.inr (by decide))

/-- Closed form of the always-retryable-failure trace: starting with `a` of
`N` attempts consumed, `N - a` further invocations happen, the scheduled
retry delays are the backoff delays at attempt counts `a+1, …, N-1`, and
the job ends Failed. -/
lemma allFailTrace_spec (policy : BackoffPolicy) (N a : Nat) (h : a < N) :
    allFailTrace policy N a =
      (N - a,
        (List.range (N - a - 1)).map (fun k => backoffDelay policy (a + k + 1)),
        JobState.failed) := by
  rw [allFailTrace]
  by_cases h1 : a + 1 < N
  · rw [dif_pos h1, allFailTrace_spec policy N (a + 1) h1]
    have hn : N - a - 1 = (N - (a + 1) - 1) + 1 := by omega
    have hm : N - a = (N - (a + 1)) + 1 := by omega
    refine Prod.ext ?_ (Prod.ext ?_ rfl)
    · simpa using hm.symm
    · simp only [hn, List.range_succ_eq_map, List.map_cons, List.map_map]
      refine congrArg₂ _ (by simp) (List.map_congr_left ?_)
      intro k _
      simp only [Function.comp]
      refine congrArg _ (by omega)
  · rw [dif_neg h1]
    have ha : N - a = 1 := by omega
    rw [ha]
    simp
termination_by N - a

/-- Claim C2: a job with `maxAttempts = N ≥ 1` whose handler returns a
retryable failure on every invocation is attempted exactly N times — no
N+1-th invocation — the delay before the k-th retry matches the configured
backoff policy (fixed: the constant delay; exponential:
`base * 2 ^ (attempts - 1)`), and the job ends Failed, no longer
lease-eligible. -/
theorem retries_exhaust_exactly (policy : BackoffPolicy) (N : Nat)
    (hN : 1 ≤ N) :
    (allFailTrace policy N 0).1 = N ∧
    (allFailTrace policy N 0).2.1 =
      (List.range (N - 1)).map (fun k => backoffDelay policy (k + 1)) ∧
    (allFailTrace policy N 0).2.2 = .failed ∧
    (∀ d k, backoffDelay (.fixed d) k = d) ∧
    (∀ b k, backoffDelay (.exponential b) k = b * 2 ^ (k - 1)) ∧
    leaseEligible { attempts := N, maxAttempts := N
                  , state := (allFailTrace policy N 0).2.2
                  , stalledCount := 0 } = false := by
  have h := allFailTrace_spec policy N 0 (by omega)
  rw [h]
  refine ⟨by omega, by simp, rfl, fun d k => rfl, fun b k => rfl, rfl⟩

/-- Witness for C2: three attempts with exponential backoff, base 2000 —
delays 2000 and 4000, then Failed. -/
theorem retries_exhaust_exactly_witness :
    (allFailTrace (.exponential 2000) 3 0).1 = 3 ∧
    (allFailTrace (.exponential 2000) 3 0).2.1 =
      (List.range 2).map (fun k => backoffDelay (.exponential 2000) (k + 1)) ∧
    (allFailTrace (.exponential 2000) 3 0).2.2 = .failed ∧
    (∀ d k, backoffDelay (.fixed d) k = d) ∧
    (∀ b k, backoffDelay (.exponential b) k = b * 2 ^ (k - 1)) ∧
    leaseEligible { attempts := 3, maxAttempts := 3
                  , state := (allFailTrace (.exponential 2000) 3 0).2.2
                  , stalledCount := 0 } = false :=
  retries_exhaust_exactly (.exponential 2000) 3 (by decide)

/-- Updating position `i` of a job-state table exchanges that position's
contribution to the Active count. -/
lemma countActive_set (js : List JobState) (i : Nat) (t s : JobState)
    (h : js.get? i = some t) :
    countActive (js.set i s) + (if t = .active then 1 else 0) =
      countActive js + (if s = .active then 1 else 0) := by
  induction js generalizing i with
  | nil => cases h
  | cons a tl ih =>
      cases i with
      | zero =>
          cases h
          simp only [List.set]
          unfold countActive
          simp only [List.countP_cons]
          by_cases hs : s = .active <;> by_cases ht : t = .active <;>
            simp [hs, ht]
      | succ i =>
          simp only [List.get?] at h
          have := ih i h
          simp only [List.set]
          unfold countActive at this ⊢
          simp only [List.countP_cons]
          by_cases ha : a = .active <;> simp [ha] <;> omega

/-- A pool step that strictly increases the Active count can only be a
lease, and a lease requires a free slot: the count was below `C`. -/
lemma poolStep_increase_lt {C : Nat} {a b : List JobState}
    (h : PoolStep C a b) (hlt : countActive a < countActive b) :
    countActive a < C := by
  cases h with
  | lease i hw hc => exact hc
  | finish i s ha' hs =>
      have := countActive_set a i .active s ha'
      have hs0 : (if s = JobState.active then 1 else 0) = 0 := by
        rcases hs with h | h | h <;> simp [h]
      simp [hs0] at this
      omega
  | requeue i hr =>
      have := countActive_set a i .retrying .waiting hr
      simp at this
      omega

/-- One pool step keeps the Active count within the concurrency bound. -/
lemma poolStep_countActive_le {C : Nat} {a b : List JobState}
    (h : PoolStep C a b) (ha : countActive a ≤ C) : countActive b ≤ C := by
  cases h with
  | lease i hw hc =>
      have := countActive_set a i .waiting .active hw
      simp at this
      omega
  | finish i s ha' hs =>
      have := countActive_set a i .active s ha'
      have hs0 : (if s = JobState.active then 1 else 0) = 0 := by
        rcases hs with h | h | h <;> simp [h]
      simp [hs0] at this
      omega
  | requeue i hr =>
      have := countActive_set a i .retrying .waiting hr
      simp at this
      omega

/-- Claim C4: a pool with concurrency bound `C`, started with at most `C`
Active jobs, never has more than `C` jobs simultaneously Active — and the
only count-increasing step, a new lease, happens only when an execution
slot is free (strictly fewer than `C` Active jobs), i.e. only after some
handler has run to completion and released its slot. -/
theorem concurrency_bound (C : Nat) (init cur : List JobState)
    (h0 : countActive init ≤ C) (hr : PoolReach C init cur) :
    countActive cur ≤ C ∧
    (∀ nxt : List JobState, PoolStep C cur nxt →
        countActive cur < countActive nxt → countActive cur < C) := by
  induction hr with
  | refl => exact ⟨h0, fun _ hstep hlt => poolStep_increase_lt hstep hlt⟩
  | tail hreach hstep ih =>
      exact ⟨poolStep_countActive_le hstep ih.1,
        fun _ hstep2 hlt => poolStep_increase_lt hstep2 hlt⟩

/-- Witness for C4: with `C = 1`, from `[waiting]` a single lease reaches
`[active]`, and the bound holds there. -/
theorem concurrency_bound_witness :
    countActive [JobState.active] ≤ 1 ∧
    (∀ nxt : List JobState, PoolStep 1 [JobState.active] nxt →
        countActive [JobState.active] < countActive nxt →
        countActive [JobState.active] < 1) :=
  concurrency_bound 1 [JobState.waiting] [JobState.active] (by decide)
    (PoolReach.tail (PoolReach.refl _)
      (PoolStep.lease [JobState.waiting] 0 rfl (by decide)))

/-- While the reclaim budget lasts, each stall round reclaims the job to
Waiting and increments its stalled count. -/
lemma afterStallChecks_le (maxStalled k : Nat) (h : k ≤ maxStalled) :
    afterStallChecks maxStalled k =
      if k = 0 then { state := .active, stalledCount := 0, failReason := none }
      else { state := .waiting, stalledCount := k, failReason := none } := by
  induction k with
  | zero => rfl
  | succ k ih =>
      have hk : k ≤ maxStalled := by omega
      rw [if_neg (Nat.succ_ne_zero k)]
      show (let j := afterStallChecks maxStalled k
            let j' := if j.state = .waiting then { j with state := .active } else j
            stalledCheck maxStalled j') = _
      rw [ih hk]
      cases k with
      | zero => simp [stalledCheck, show 0 < maxStalled by omega]
      | succ m =>
          rw [if_neg (Nat.succ_ne_zero m)]
          simp [stalledCheck, show m + 1 < maxStalled by omega]

/-- Once the reclaim budget is spent, the job is Failed with reason
"stalled" and stays so through further rounds. -/
lemma afterStallChecks_gt (maxStalled k : Nat) (h : maxStalled < k) :
    afterStallChecks maxStalled k =
      { state := .failed, stalledCount := maxStalled
      , failReason := some "stalled" } := by
  induction k with
  | zero => omega
  | succ k ih =>
      show (let j := afterStallChecks maxStalled k
            let j' := if j.state = .waiting then { j with state := .active } else j
            stalledCheck maxStalled j') = _
      by_cases hk : maxStalled < k
      · rw [ih hk]
        simp [stalledCheck]
      · have hk2 : k = maxStalled := by omega
        subst hk2
        rw [afterStallChecks_le k k (le_refl k)]
        cases k with
        | zero => simp [stalledCheck]
        | succ m =>
            rw [if_neg (Nat.succ_ne_zero m)]
            simp [stalledCheck]

/-- Claim C6: an Active job whose lease expired without a heartbeat is
returned to Waiting by the stalled-job check exactly while its
stalled-reclaim count is below `maxStalled` — after `k ≤ maxStalled`
stall rounds it sits in Waiting with count `k` — and once the count
reaches `maxStalled` the next round marks it Failed with reason
"stalled"; the reclaim count never exceeds `maxStalled`. -/
theorem stalled_reclaim_policy (maxStalled k : Nat) :
    afterStallChecks maxStalled k =
      (if k = 0 then { state := .active, stalledCount := 0, failReason := none }
       else if k ≤ maxStalled then
         { state := .waiting, stalledCount := k, failReason := none }
       else
         { state := .failed, stalledCount := maxStalled
         , failReason := some "stalled" }) ∧
    (afterStallChecks maxStalled k).stalledCount ≤ maxStalled := by
  by_cases h : k ≤ maxStalled
  · rw [afterStallChecks_le maxStalled k h, if_pos h]
    by_cases h0 : k = 0 <;> simp [h0, h]
  · have h2 : maxStalled < k := by omega
    rw [afterStallChecks_gt maxStalled k h2]
    have h0 : k ≠ 0 := by omega
    simp [h0, h]

/-- Witness for C6 at the worker's configured `maxStalledCount = 1`
(queue-server.js line 76), after two stall rounds: one reclaim, then
Failed with the stall reason. -/
theorem stalled_reclaim_policy_witness :
    afterStallChecks 1 2 =
      (if 2 = 0 then { state := .active, stalledCount := 0, failReason := none }
       else if 2 ≤ 1 then
         { state := .waiting, stalledCount := 2, failReason := none }
       else
         { state := .failed, stalledCount := 1
         , failReason := some "stalled" }) ∧
    (afterStallChecks 1 2).stalledCount ≤ 1 :=
  stalled_reclaim_policy 1 2

/-- What `clean` keeps is a sublist of the input records. -/
lemma cleanGo_sublist (target : JobState) (olderThan now : Nat) :
    ∀ (js : List TJob) (limit : Nat),
      (cleanGo target olderThan now limit js).1.Sublist js := by
  intro js
  induction js with
  | nil => intro limit; simp [cleanGo]
  | cons j js ih =>
      intro limit
      cases limit with
      | zero => simp [cleanGo]
      | succ l =>
          by_cases h : cleanEligible target olderThan now j
          · simp only [cleanGo, if_pos h]
            exact (ih l).cons j
          · simp only [cleanGo, if_neg h]
            exact (ih (l + 1)).cons₂ j

/-- `clean` accounts exactly for the removed records. -/
lemma cleanGo_length (target : JobState) (olderThan now : Nat) :
    ∀ (js : List TJob) (limit : Nat),
      js.length = (cleanGo target olderThan now limit js).1.length +
        (cleanGo target olderThan now limit js).2 := by
  intro js
  induction js with
  | nil => intro limit; simp [cleanGo]
  | cons j js ih =>
      intro limit
      cases limit with
      | zero => simp [cleanGo]
      | succ l =>
          by_cases h : cleanEligible target olderThan now j
          · simp only [cleanGo, if_pos h, List.length_cons]
            have := ih l
            omega
          · simp only [cleanGo, if_neg h, List.length_cons]
            have := ih (l + 1)
            omega

/-- `clean` removes at most `limit` records per call. -/
lemma cleanGo_count_le (target : JobState) (olderThan now : Nat) :
    ∀ (js : List TJob) (limit : Nat),
      (cleanGo target olderThan now limit js).2 ≤ limit := by
  intro js
  induction js with
  | nil => intro limit; simp [cleanGo]
  | cons j js ih =>
      intro limit
      cases limit with
      | zero => simp [cleanGo]
      | succ l =>
          by_cases h : cleanEligible target olderThan now j
          · simp only [cleanGo, if_pos h]
            have := ih l
            omega
          · simp only [cleanGo, if_neg h]
            exact ih (l + 1)

/-- `clean` keeps every ineligible record. -/
lemma cleanGo_keep (target : JobState) (olderThan now : Nat) :
    ∀ (js : List TJob) (limit : Nat) (j : TJob), j ∈ js →
      cleanEligible target olderThan now j = false →
      j ∈ (cleanGo target olderThan now limit js).1 := by
  intro js
  induction js with
  | nil => intro limit j hj _; cases hj
  | cons j0 js ih =>
      intro limit j hj hin
      cases limit with
      | zero => simpa [cleanGo] using hj
      | succ l =>
          by_cases h : cleanEligible target olderThan now j0
          · simp only [cleanGo, if_pos h]
            rcases List.mem_cons.mp hj with hj | hj
            · subst hj
              rw [hin] at h
              cases h
            · exact ih l j hj hin
          · simp only [cleanGo, if_neg h]
            rcases List.mem_cons.mp hj with hj | hj
            · subst hj
              exact List.mem_cons_self _ _
            · exact List.mem_cons_of_mem _ (ih (l + 1) j hj hin)

/-- `clean` is a no-op when no record matches. -/
lemma cleanGo_noop (target : JobState) (olderThan now : Nat) :
    ∀ (js : List TJob) (limit : Nat),
      (∀ j ∈ js, cleanEligible target olderThan now j = false) →
      cleanGo target olderThan now limit js = (js, 0) := by
  intro js
  induction js with
  | nil => intro limit _; simp [cleanGo]
  | cons j0 js ih =>
      intro limit h
      cases limit with
      | zero => simp [cleanGo]
      | succ l =>
          have h0 : cleanEligible target olderThan now j0 = false :=
            h j0 (List.mem_cons_self _ _)
          simp only [cleanGo, h0, Bool.false_eq_true, if_false]
          rw [ih (l + 1) (fun j hj => h j (List.mem_cons_of_mem _ hj))]

/-- On a record list ordered oldest first, `clean` removes oldest first:
every removed record is no younger than any eligible record it keeps. -/
lemma cleanGo_oldest (target : JobState) (olderThan now : Nat) :
    ∀ (js : List TJob) (limit : Nat),
      js.Pairwise (fun a b => a.finishedAt ≤ b.finishedAt) →
      ∀ j ∈ js, j ∉ (cleanGo target olderThan now limit js).1 →
      ∀ j2 ∈ (cleanGo target olderThan now limit js).1,
        cleanEligible target olderThan now j2 = true →
        j.finishedAt ≤ j2.finishedAt := by
  intro js
  induction js with
  | nil => intro limit _ j hj; cases hj
  | cons j0 js ih =>
      intro limit hp j hj hout j2 hj2 he2
      rcases List.pairwise_cons.mp hp with ⟨hp0, hp1⟩
      cases limit with
      | zero =>
          exact absurd (by simpa [cleanGo] using hj) hout
      | succ l =>
          by_cases h : cleanEligible target olderThan now j0
          · rw [show cleanGo target olderThan now (l + 1) (j0 :: js) =
                  ((cleanGo target olderThan now l js).1,
                    (cleanGo target olderThan now l js).2 + 1) by
                simp [cleanGo, if_pos h]] at hout hj2
            rcases List.mem_cons.mp hj with hj | hj
            · subst hj
              exact hp0 j2 ((cleanGo_sublist target olderThan now js l).subset hj2)
            · exact ih l hp1 j hj hout j2 hj2 he2
          · rw [show cleanGo target olderThan now (l + 1) (j0 :: js) =
                  (j0 :: (cleanGo target olderThan now (l + 1) js).1,
                    (cleanGo target olderThan now (l + 1) js).2) by
                simp [cleanGo, if_neg h]] at hout hj2
            rcases List.mem_cons.mp hj with hj | hj
            · subst hj
              exact absurd (List.mem_cons_self _ _) hout
            · rcases List.mem_cons.mp hj2 with hj2 | hj2
              · subst hj2
                exact absurd he2 h
              · exact ih (l + 1) hp1 j hj
                  (fun hc => hout (List.mem_cons_of_mem _ hc)) j2 hj2 he2

/-- Claim C5: `clean(olderThan, limit, state)` with a terminal target state
removes only records in that state older than `olderThan` (every
ineligible record — in particular every Waiting and Active job — is kept),
removes at most `limit` of them (accounting exactly for the length drop),
is a no-op when nothing matches, and on a list ordered oldest first it
removes oldest first. -/
theorem clean_spec (olderThan limit : Nat) (target : JobState) (now : Nat)
    (js : List TJob) (hterm : target = .completed ∨ target = .failed)
    (hsorted : js.Pairwise (fun a b => a.finishedAt ≤ b.finishedAt)) :
    (clean olderThan limit target now js).2 ≤ limit ∧
    (clean olderThan limit target now js).1.Sublist js ∧
    js.length = (clean olderThan limit target now js).1.length +
      (clean olderThan limit target now js).2 ∧
    (∀ j ∈ js, cleanEligible target olderThan now j = false →
        j ∈ (clean olderThan limit target now js).1) ∧
    (∀ j ∈ js, j.state = .waiting ∨ j.state = .active →
        j ∈ (clean olderThan limit target now js).1) ∧
    ((∀ j ∈ js, cleanEligible target olderThan now j = false) →
        clean olderThan limit target now js = (js, 0)) ∧
    (∀ j ∈ js, j ∉ (clean olderThan limit target now js).1 →
        ∀ j2 ∈ (clean olderThan limit target now js).1,
          cleanEligible target olderThan now j2 = true →
          j.finishedAt ≤ j2.finishedAt) := by
  refine ⟨cleanGo_count_le target olderThan now js limit,
    cleanGo_sublist target olderThan now js limit,
    cleanGo_length target olderThan now js limit,
    fun j hj hin => cleanGo_keep target olderThan now js limit j hj hin,
    ?_,
    cleanGo_noop target olderThan now js limit,
    cleanGo_oldest target olderThan now js limit hsorted⟩
  intro j hj hst
  refine cleanGo_keep target olderThan now js limit j hj ?_
  rcases hterm with ht | ht <;> rcases hst with hs | hs <;>
    simp [cleanEligible, ht, hs]

/-- A concrete record list, ordered oldest first: an old Completed job, an
old Waiting job, and a fresh Completed job. -/
def tjobs0 : List TJob :=
  [{ id := 1, state := .completed, finishedAt := 10 },
   { id := 2, state := .waiting, finishedAt := 20 },
   { id := 3, state := .completed, finishedAt := 95 }]

/-- Witness for C5: `clean(olderThan := 5, limit := 100, Completed)` at
time 100 over `tjobs0`. -/
theorem clean_spec_witness :
    (clean 5 100 .completed 100 tjobs0).2 ≤ 100 ∧
    (clean 5 100 .completed 100 tjobs0).1.Sublist tjobs0 ∧
    tjobs0.length = (clean 5 100 .completed 100 tjobs0).1.length +
      (clean 5 100 .completed 100 tjobs0).2 ∧
    (∀ j ∈ tjobs0, cleanEligible .completed 5 100 j = false →
        j ∈ (clean 5 100 .completed 100 tjobs0).1) ∧
    (∀ j ∈ tjobs0, j.state = .waiting ∨ j.state = .active →
        j ∈ (clean 5 100 .completed 100 tjobs0).1) ∧
    ((∀ j ∈ tjobs0, cleanEligible .completed 5 100 j = false) →
        clean 5 100 .completed 100 tjobs0 = (tjobs0, 0)) ∧
    (∀ j ∈ tjobs0, j ∉ (clean 5 100 .completed 100 tjobs0).1 →
        ∀ j2 ∈ (clean 5 100 .completed 100 tjobs0).1,
          cleanEligible .completed 5 100 j2 = true →
          j.finishedAt ≤ j2.finishedAt) :=
  clean_spec 5 100 .completed 100 tjobs0 (Or.inl rfl) (by decide)

/-- Claim C7: a SIGTERM/SIGINT while Running enters Draining: the drain
trace leases no new job, every in-flight handler finishes before the
worker pools close, the pools close before the queues, the queues before
the broker connection, and the last event is an exit with code 0; a
termination request while already Draining or Stopped produces no state
change and no events.  The embedded `gracefulShutdown` sequence closes
every worker pool before every queue and ends with `process.exit(0)`. -/
theorem graceful_drain (inFlight : Nat) :
    signalState .running = .draining ∧
    LcEvent.leaseNew ∉ drainTrace inFlight ∧
    (∀ i, (drainTrace inFlight).get? i = some .handlerFinish → i < inFlight) ∧
    (drainTrace inFlight).get? inFlight = some .closedWorkerPools ∧
    (drainTrace inFlight).get? (inFlight + 1) = some .closedQueues ∧
    (drainTrace inFlight).get? (inFlight + 2) = some .closedBroker ∧
    (drainTrace inFlight).get? (inFlight + 3) = some (.exited 0) ∧
    (drainTrace inFlight).length = inFlight + 4 ∧
    signalState .draining = .draining ∧
    signalState .stopped = .stopped ∧
    signalEvents .draining inFlight = [] ∧
    signalEvents .stopped inFlight = [] ∧
    signalEvents .running inFlight = drainTrace inFlight ∧
    (∀ i j : Fin gracefulShutdown.length,
        (gracefulShutdown.get i).isPoolClose = true →
        (gracefulShutdown.get j).isQueueClose = true → (i : Nat) < j) ∧
    gracefulShutdown.get? 4 = some (.exitProcess 0) := by
  have hrep : ∀ i e, (List.replicate inFlight LcEvent.handlerFinish).get? i
      = some e → i < inFlight := by
    intro i e h
    by_contra hge
    rw [List.get?_eq_none.mpr (by simpa using Nat.le_of_not_lt hge)] at h
    cases h
  have htail : ∀ k : Nat,
      (drainTrace inFlight).get? (inFlight + k) =
        [LcEvent.closedWorkerPools, LcEvent.closedQueues,
          LcEvent.closedBroker, LcEvent.exited 0].get? k := by
    intro k
    unfold drainTrace
    rw [List.get?_append_right (by simp)]
    simp
  refine ⟨rfl, ?_, ?_, ?_, ?_, ?_, ?_, ?_, rfl, rfl, rfl, rfl, rfl, ?_, rfl⟩
  · unfold drainTrace
    simp [List.mem_replicate]
  · intro i h
    unfold drainTrace at h
    by_cases hi : i < inFlight
    · exact hi
    · rw [List.get?_append_right (by simpa using Nat.le_of_not_lt hi)] at h
      have h4 : i - inFlight < 4 := by
        by_contra hge
        rw [List.get?_eq_none.mpr (by simp; omega)] at h
        cases h
      interval_cases hi2 : (i - inFlight) <;> simp_all
  · simpa using htail 0
  · simpa using htail 1
  · simpa using htail 2
  · simpa using htail 3
  · unfold drainTrace
    simp
  · decide

/-- Witness for C7 with one in-flight handler invocation. -/
theorem graceful_drain_witness :
    signalState .running = .draining ∧
    LcEvent.leaseNew ∉ drainTrace 1 ∧
    (∀ i, (drainTrace 1).get? i = some .handlerFinish → i < 1) ∧
    (drainTrace 1).get? 1 = some .closedWorkerPools ∧
    (drainTrace 1).get? (1 + 1) = some .closedQueues ∧
    (drainTrace 1).get? (1 + 2) = some .closedBroker ∧
    (drainTrace 1).get? (1 + 3) = some (.exited 0) ∧
    (drainTrace 1).length = 1 + 4 ∧
    signalState .draining = .draining ∧
    signalState .stopped = .stopped ∧
    signalEvents .draining 1 = [] ∧
    signalEvents .stopped 1 = [] ∧
    signalEvents .running 1 = drainTrace 1 ∧
    (∀ i j : Fin gracefulShutdown.length,
        (gracefulShutdown.get i).isPoolClose = true →
        (gracefulShutdown.get j).isQueueClose = true → (i : Nat) < j) ∧
    gracefulShutdown.get? 4 = some (.exitProcess 0) :=
  graceful_drain 1

/-- Claim C8: the retention sweeper survives failing cycles — every cycle's
broker errors are caught (each cycle yields a log, a failing cycle logs
`caught`), so a run over any sequence of cycle outcomes produces one log
per scheduled cycle and never aborts. -/
theorem sweeper_resilient (cycles : List (CleanOutcome × CleanOutcome)) :
    (∃ logs : List SweepLog, runSweeper cycles = .ok logs ∧
        logs.length = cycles.length) ∧
    (∀ m c2, sweeperCycle (.brokerError m) c2 = .ok (.caught m)) ∧
    (∀ m n, sweeperCycle (.ok n) (.brokerError m) = .ok (.caught m)) := by
  refine ⟨?_, fun m c2 => rfl, fun m n => rfl⟩
  induction cycles with
  | nil => exact ⟨[], rfl, rfl⟩
  | cons c rest ih =>
      obtain ⟨logs, hrun, hlen⟩ := ih
      have hcycle : ∃ l, sweeperCycle c.1 c.2 = .ok l := by
        cases h1 : c.1 with
        | brokerError m => exact ⟨.caught m, rfl⟩
        | ok n =>
            cases h2 : c.2 with
            | brokerError m => exact ⟨.caught m, by simp [sweeperCycle]⟩
            | ok n2 => exact ⟨.cleaned, by simp [sweeperCycle]⟩
      obtain ⟨l, hl⟩ := hcycle
      refine ⟨l :: logs, ?_, by simp [hlen]⟩
      simp [runSweeper, hl, hrun]
      rfl

/-- Witness for C8: a run whose first cycle hits a broker error still runs
the second cycle. -/
theorem sweeper_resilient_witness :
    (∃ logs : List SweepLog,
        runSweeper [(.brokerError "ETIMEDOUT", .ok 0), (.ok 3, .ok 1)] =
          .ok logs ∧
        logs.length =
          [((.brokerError "ETIMEDOUT" : CleanOutcome), (.ok 0 : CleanOutcome)),
            (.ok 3, .ok 1)].length) ∧
    (∀ m c2, sweeperCycle (.brokerError m) c2 = .ok (.caught m)) ∧
    (∀ m n, sweeperCycle (.ok n) (.brokerError m) = .ok (.caught m)) :=
  sweeper_resilient [(.brokerError "ETIMEDOUT", .ok 0), (.ok 3, .ok 1)]

end Clinicall
